import Mathlib

/-!
Verification of the application lifecycle engine (`makeApp` and its helpers):
the lifecycle ladder (`makeAppLifecycleManager`), the hook registry
(`makeHookStore`), the sequential async runner (`promiseChain`), the
memoised `start`/`stop` state machine, and the shutdown routine.

The JavaScript source is shallowly embedded:
pure helpers become Lean functions,
the single-threaded event-loop execution of the memoised `start`/`stop`
pair becomes a small-step machine driven by an explicit schedule of
commands (each command is one atomic segment of synchronous execution
between `await` points), and a hook's behaviour is abstracted by its
settled outcome (resolve or reject), since hooks are externally supplied
opaque callbacks.
-/

namespace App

/-- The six lifecycle phases, in ladder order (the `Lifecycle` enum). -/
inductive Lifecycle
  | booting
  | booted
  | ready
  | running
  | shuttingDown
  | terminated
deriving DecidableEq, Fintype

/-- The fixed ordered phase array `appLifecycle` from the source. -/
def appLifecycle : List Lifecycle :=
  [.booting, .booted, .ready, .running, .shuttingDown, .terminated]

/-- JavaScript `Array.prototype.indexOf`, with the current-phase cell
modelled as `Option Lifecycle` (`none` = `undefined`, which is never an
element, so `indexOf` yields `-1`).  A present element yields its index. -/
def indexOfJs (xs : List Lifecycle) (x : Option Lifecycle) : Int :=
  match x with
  | none => -1
  | some v => if v ∈ xs then (xs.indexOf v : Int) else -1

/-- The check `canTransition` from `makeAppLifecycleManager`:
`appLifecycle.indexOf(current) < stateMap.indexOf(lifecycle)`,
with `stateMap = appLifecycle` as instantiated in `makeApp`. -/
def canTransition (cur : Option Lifecycle) (l : Lifecycle) : Bool :=
  indexOfJs appLifecycle cur < indexOfJs appLifecycle (some l)

/-- The five-value `AppState` enum (the externally visible RunState). -/
inductive AppState
  | idle
  | starting
  | started
  | stopping
  | stopped
deriving DecidableEq

/-- Position of a RunState in the documented forward order. -/
def AppState.idx : AppState → Nat
  | .idle => 0
  | .starting => 1
  | .started => 2
  | .stopping => 3
  | .stopped => 4

/-- One element of the array handed to `promiseChain` by `start`/`stop`:
a `status(s)` setter, a `() => promiseChain(hooks.get(l))` thunk produced
by a successful `transition(l)`, or the `started` hook (which logs, sets
`AppState.STARTED`, and parks on the release gate). -/
inductive Item
  | setState (s : AppState)
  | runHooks (l : Lifecycle)
  | startedItem
deriving DecidableEq

/-- One call of the closure returned by `makeTransition`, as instantiated
in `makeApp` (`callback = l => [() => promiseChain(hooks.get(l))]`,
`or = []`): if `canTransition` holds the current-phase cell is updated and
a one-element array with the phase's hook thunk is returned, otherwise the
cell is untouched and the empty-array sentinel is returned. -/
def transitionStep (cur : Option Lifecycle) (l : Lifecycle) :
    Option Lifecycle × List Item :=
  if canTransition cur l then (some l, [Item.runHooks l]) else (cur, [])

/-- The array built synchronously inside `start` at call time
(`[status(STARTING), ...transition(BOOTING), ..., started]`), together
with the current-phase cell after the four eager `transition` calls. -/
def buildStartChain (cur : Option Lifecycle) : Option Lifecycle × List Item :=
  let s1 := transitionStep cur .booting
  let s2 := transitionStep s1.1 .booted
  let s3 := transitionStep s2.1 .ready
  let s4 := transitionStep s3.1 .running
  (s4.1, Item.setState .starting :: (s1.2 ++ s2.2 ++ s3.2 ++ s4.2) ++ [Item.startedItem])

/-- The array built synchronously inside `stop` at call time
(`[status(STOPPING), ...transition(SHUTTING_DOWN), ...transition(TERMINATED),
status(STOPPED)]`), with the updated current-phase cell. -/
def buildStopChain (cur : Option Lifecycle) : Option Lifecycle × List Item :=
  let s1 := transitionStep cur .shuttingDown
  let s2 := transitionStep s1.1 .terminated
  (s2.1, Item.setState .stopping :: (s1.2 ++ s2.2) ++ [Item.setState .stopped])

/-! ## Hook registry (`makeHookStore`) -/

/-- The hook registry: a map from phase to its ordered hook list, with
`get` defaulting to the empty list (hooks are identified by a tag `α`). -/
def HookStore (α : Type) := Lifecycle → List α

/-- Source `get(lifecycle)`: `hooks.get(lifecycle) || []`. -/
def hsGet {α} (s : HookStore α) (l : Lifecycle) : List α := s l

/-- Source `append(lifecycle, ...fn)`: `hooks.set(lifecycle, [...get(lifecycle), ...fn])`. -/
def hsAppend {α} (s : HookStore α) (l : Lifecycle) (fns : List α) : HookStore α :=
  fun q => if q = l then hsGet s l ++ fns else s q

/-- Source `prepend(lifecycle, ...fn)`: `hooks.set(lifecycle, [...fn, ...get(lifecycle)])`. -/
def hsPrepend {α} (s : HookStore α) (l : Lifecycle) (fns : List α) : HookStore α :=
  fun q => if q = l then fns ++ hsGet s l else s q

/-- The registry at module construction: every phase maps to no hooks. -/
def emptyStore {α} : HookStore α := fun _ => []

/-- One registration call against a fixed phase: `append` or `prepend`
with its argument list of hooks. -/
inductive RegOp (α : Type)
  | app (fns : List α)
  | pre (fns : List α)

/-- Perform one registration call on phase `l`. -/
def applyOp {α} (l : Lifecycle) (s : HookStore α) : RegOp α → HookStore α
  | .app fns => hsAppend s l fns
  | .pre fns => hsPrepend s l fns

/-- Perform a sequence of registration calls on phase `l`, first call first. -/
def applyOps {α} (l : Lifecycle) (s : HookStore α) (ops : List (RegOp α)) : HookStore α :=
  List.foldl (applyOp l) s ops

/-- The argument lists of the `append` calls of a registration sequence,
in call order. -/
def appLists {α} : List (RegOp α) → List (List α)
  | [] => []
  | .app fns :: rest => fns :: appLists rest
  | .pre _ :: rest => appLists rest

/-- The argument lists of the `prepend` calls of a registration sequence,
in call order. -/
def preLists {α} : List (RegOp α) → List (List α)
  | [] => []
  | .app _ :: rest => preLists rest
  | .pre fns :: rest => fns :: preLists rest

/-! ## Sequential async runner (`promiseChain`) -/

/-- The runner `promiseChain` on settled outcomes only:
`hooksFns.reduce((chain, fn) => chain.then(fn), Promise.resolve())`.
`.then` invokes `fn` when the accumulated chain is resolved and passes a
rejection through unchanged. -/
def promiseChain {ε : Type} (hooksFns : List (Except ε Unit)) : Except ε Unit :=
  List.foldl
    (fun chain fn => match chain with
      | .ok _ => fn
      | .error e => .error e)
    (.ok ()) hooksFns

/-- One `.then(fn)` on an instrumented chain value: when the accumulated
chain is resolved, `fn` is invoked (its tag is recorded and its outcome
becomes the chain's); a rejected chain passes through and `fn` is never
invoked. -/
def chainThen {α ε : Type} (chain : List α × Except ε Unit) (fn : α × Except ε Unit) :
    List α × Except ε Unit :=
  match chain with
  | (tr, .ok _) => (tr ++ [fn.1], fn.2)
  | (tr, .error e) => (tr, .error e)

/-- Instrumented `promiseChain`: each hook carries a tag, and the fold
additionally records, in execution order, the tags of the hooks that were
actually invoked. -/
def promiseChainTr {α ε : Type} (hooksFns : List (α × Except ε Unit)) :
    List α × Except ε Unit :=
  List.foldl chainThen ([], .ok ()) hooksFns

/-- Modelled from the spec's runner contract, for comparison with
`promiseChainTr`: run the hooks in list order, stop at the first failure,
report exactly the invoked hooks and propagate that same failure; the
empty list resolves at once. -/
def runnerSpec {α ε : Type} : List (α × Except ε Unit) → List α × Except ε Unit
  | [] => ([], .ok ())
  | fn :: rest =>
    match fn.2 with
    | .error e => ([fn.1], .error e)
    | .ok _ =>
      let r := runnerSpec rest
      (fn.1 :: r.1, r.2)

/-! ## The memoised `start`/`stop` state machine

`start` and `stop` are `async` closures wrapped in `memo`: the first call
stores the returned promise in the cache cell (a promise is always truthy)
and every further call returns that same cell.  Their bodies run
synchronously up to the first `await`, which is how the `transition`
calls advance the current-phase cell eagerly at call time, while the
chain items themselves run later, one event-loop segment at a time. -/

instance {ε α : Type} [DecidableEq ε] [DecidableEq α] : DecidableEq (Except ε α) :=
  fun a b =>
    match a, b with
    | .ok x, .ok y =>
      if h : x = y then .isTrue (by rw [h]) else .isFalse (fun hh => by cases hh; exact h rfl)
    | .error x, .error y =>
      if h : x = y then .isTrue (by rw [h]) else .isFalse (fun hh => by cases hh; exact h rfl)
    | .ok _, .error _ => .isFalse (fun hh => Except.noConfusion hh)
    | .error _, .ok _ => .isFalse (fun hh => Except.noConfusion hh)

/-- The memo cell and execution state of the `start` closure. -/
inductive StartStatus
  /-- The cache cell of `memo` is still unset: the body runs on the next call. -/
  | notCalled
  /-- The first call's chain is in flight; `items` are the not yet
  executed chain elements. -/
  | runningItems (items : List Item)
  /-- The `started` hook has run: `start` is parked on the release gate. -/
  | waitingRelease
  /-- A chain element failed; the `catch` block has logged the failure and
  is awaiting `stop()` (the compensating action). -/
  | compensating
  /-- The cached promise is settled (resolved or rejected). -/
  | settled (r : Except Unit Unit)
deriving DecidableEq

/-- The memo cell and execution state of the `stop` closure. -/
inductive StopStatus
  | notCalled
  | runningItems (items : List Item)
  | settled (r : Except Unit Unit)
deriving DecidableEq

/-- An observable occurrence during one run, recorded in order:
a phase's hook chain being invoked (with its settled outcome), the
`logger.error` call in `start`'s catch block, and each assignment to
`appState`. -/
inductive Event
  | ranHooks (l : Lifecycle) (ok : Bool)
  | logError
  | stateSet (s : AppState)
deriving DecidableEq

/-- The whole mutable state of one `makeApp` module instance, plus the
event log. -/
structure Config where
  appState : AppState
  cur : Option Lifecycle
  releaseSet : Bool
  startSt : StartStatus
  stopSt : StopStatus
  events : List Event
deriving DecidableEq

/-- The state right after `makeApp` returns: `appState = IDLE`, the
current-phase cell is `undefined`, the release gate is unset and neither
memo cell is populated. -/
def initConfig : Config :=
  { appState := .idle, cur := none, releaseSet := false,
    startSt := .notCalled, stopSt := .notCalled, events := [] }

/-- Resolving the release gate (`release()` inside `stop`): the parked
`started` hook — the last chain element — completes, so the memoised
`start` promise resolves. -/
def settleStart : StartStatus → StartStatus
  | .waitingRelease => .settled (.ok ())
  | s => s

/-- The synchronous prefix of `stop`'s body, run only when its memo cell
is empty: the idle guard (an `async` throw becomes a cached rejection),
fulfilling and clearing a pending release gate, and the eager
construction of the teardown chain. -/
def invokeStopBody (c : Config) : Config :=
  if c.appState = .idle then
    { c with stopSt := .settled (.error ()) }
  else
    let c1 : Config :=
      if c.releaseSet then
        { c with releaseSet := false, startSt := settleStart c.startSt }
      else c
    let b := buildStopChain c1.cur
    { c1 with cur := b.1, stopSt := .runningItems b.2 }

/-- After `start`'s catch block has requested `stop()`: a settled stop
promise settles `start` with the same outcome (`await stop()` re-throws a
rejection out of the `catch`), otherwise `start` stays parked awaiting
the in-flight stop. -/
def afterCompStop (c : Config) : Config :=
  match c.stopSt with
  | .settled r => { c with startSt := .settled r }
  | _ => { c with startSt := .compensating }

/-- The chain of `stop` settles with outcome `r`; a `start` that was awaiting
the compensating stop settles with the same outcome. -/
def settleStop (r : Except Unit Unit) (c : Config) : Config :=
  let c1 : Config := { c with stopSt := .settled r }
  match c.startSt with
  | .compensating => { c1 with startSt := .settled r }
  | _ => c1

/-- One atomic event-loop segment, chosen by the scheduler: a public
`start()` or `stop()` call (their synchronous prefixes), or the settling
of the next pending chain element of the respective in-flight chain. -/
inductive Cmd
  | callStart
  | callStop
  | stepStart
  | stepStop
deriving DecidableEq

/-- Small-step semantics of the module.  `h l` is the settled outcome of
phase `l`'s hook chain (`true` = resolves), abstracting the externally
registered hooks. -/
def step (h : Lifecycle → Bool) (c : Config) : Cmd → Config
  | .callStart =>
    match c.startSt with
    | .notCalled =>
      if c.appState = .idle then
        let b := buildStartChain c.cur
        { c with cur := b.1, startSt := .runningItems b.2 }
      else
        { c with startSt := .settled (.error ()) }
    | _ => c
  | .callStop =>
    match c.stopSt with
    | .notCalled => invokeStopBody c
    | _ => c
  | .stepStart =>
    match c.startSt with
    | .runningItems [] => { c with startSt := .settled (.ok ()) }
    | .runningItems (item :: rest) =>
      match item with
      | .setState s =>
        { c with appState := s, events := c.events ++ [.stateSet s],
                 startSt := .runningItems rest }
      | .runHooks l =>
        if h l then
          { c with events := c.events ++ [.ranHooks l true],
                   startSt := .runningItems rest }
        else
          let c1 : Config := { c with events := c.events ++ [.ranHooks l false, .logError] }
          let c2 := if c1.stopSt = .notCalled then invokeStopBody c1 else c1
          afterCompStop c2
      | .startedItem =>
        { c with appState := .started, events := c.events ++ [.stateSet .started],
                 releaseSet := true, startSt := .waitingRelease }
    | _ => c
  | .stepStop =>
    match c.stopSt with
    | .runningItems [] => settleStop (.ok ()) c
    | .runningItems (item :: rest) =>
      match item with
      | .setState s =>
        let c1 : Config := { c with appState := s, events := c.events ++ [.stateSet s] }
        if rest.isEmpty then settleStop (.ok ()) c1
        else { c1 with stopSt := .runningItems rest }
      | .runHooks l =>
        if h l then
          let c1 : Config := { c with events := c.events ++ [.ranHooks l true] }
          if rest.isEmpty then settleStop (.ok ()) c1
          else { c1 with stopSt := .runningItems rest }
        else
          settleStop (.error ()) { c with events := c.events ++ [.ranHooks l false] }
      | .startedItem => { c with stopSt := .runningItems rest }
    | _ => c

/-- Run a whole schedule. -/
def run (h : Lifecycle → Bool) (c : Config) (cmds : List Cmd) : Config :=
  List.foldl (step h) c cmds

/-- The RunState values observed over a schedule, one per scheduler
segment, starting with the state before the first segment. -/
def statesOf (h : Lifecycle → Bool) (c : Config) (cmds : List Cmd) : List AppState :=
  (List.scanl (step h) c cmds).map Config.appState

/-- Holds unless the `start` chain still has pending items. -/
def notMidStart (c : Config) : Bool :=
  match c.startSt with
  | .runningItems _ => false
  | _ => true

/-- A schedule is release-disciplined from `c` when every `stop()` call
happens while `start`'s chain is not mid-flight (so `stop` is called
before `start`, while `start` is parked on the release gate, or after
`start` settled). -/
def goodFrom (h : Lifecycle → Bool) (c : Config) : List Cmd → Bool
  | [] => true
  | cmd :: rest =>
    ((cmd ≠ Cmd.callStop) || notMidStart c) && goodFrom h (step h c cmd) rest

/-- Holds on the event of phase `l`'s hook chain having been invoked. -/
def ranPhase (l : Lifecycle) : Event → Bool
  | .ranHooks q _ => q = l
  | _ => false

/-! ## Shutdown routine (`shutdown(code)`)

The routine installed on the four process-fatal channels.  Its branching
reads only `appState` and the `forceShutdown` flag; the cosmetic newline
and the unref'd hard-deadline timer are diagnostics with no effect on the
branch taken and are not modelled. -/

/-- The state the shutdown routine reads and writes. -/
structure ShutSt where
  appState : AppState
  forceShutdown : Bool
deriving DecidableEq

/-- What the shutdown routine did on one invocation. -/
inductive ShutAct
  /-- The force branch: `process.exit(code)` at once, no `stop()` call. -/
  | exitedImmediately (code : Int)
  /-- First repeated graceful signal: logged the force-exit warning, set
  `forceShutdown`, and returned without exiting or calling `stop()`. -/
  | warnedForce
  /-- Invoked (and awaited) `stop()`, then `process.exit(code)`. -/
  | calledStopThenExit (code : Int)
  /-- State `appState` was already `STOPPED`: exited without calling `stop()`. -/
  | exitedWithoutStop (code : Int)
deriving DecidableEq

/-- One invocation of `shutdown(code)`'s returned async handler. -/
def shutdown (code : Int) (s : ShutSt) : ShutSt × ShutAct :=
  if s.appState = .stopping ∧ code = 0 then
    if s.forceShutdown then (s, .exitedImmediately code)
    else ({ s with forceShutdown := true }, .warnedForce)
  else if s.appState ≠ .stopped then (s, .calledStopThenExit code)
  else (s, .exitedWithoutStop code)

/-! ## Spec-side definitions used by refinement statements -/

/-- Modelled from the spec: the fixed index of a phase in the six-phase
sequence. -/
def phaseIdxSpec : Lifecycle → Nat
  | .booting => 0
  | .booted => 1
  | .ready => 2
  | .running => 3
  | .shuttingDown => 4
  | .terminated => 5

/-- Modelled from the spec's ladder contract: `canAdvance(target)` is true
iff `order(target) > order(current)`, an unset current pointer counting as
before all phases. -/
def canAdvanceSpec (cur : Option Lifecycle) (l : Lifecycle) : Bool :=
  match cur with
  | none => true
  | some c => phaseIdxSpec c < phaseIdxSpec l

/-- Every phase's hook chain resolves. -/
def allOk : Lifecycle → Bool := fun _ => true

/-- A phase environment in which only the `booted` phase's hook chain
rejects. -/
def bootedFails : Lifecycle → Bool := fun l => !(l == Lifecycle.booted)

/-- A phase environment in which the `booted` and `shuttingDown` hook
chains both reject. -/
def bootedTeardownFail : Lifecycle → Bool :=
  fun l => !(l == Lifecycle.booted || l == Lifecycle.shuttingDown)

/-! ## Helper lemmas -/

theorem chainThen_foldl_error {α ε : Type} (hooksFns : List (α × Except ε Unit))
    (tr : List α) (e : ε) :
    List.foldl chainThen (tr, .error e) hooksFns = (tr, .error e) := by
  induction hooksFns with
  | nil => rfl
  | cons fn rest ih => exact ih

theorem chainThen_foldl_ok {α ε : Type} (hooksFns : List (α × Except ε Unit))
    (tr : List α) :
    List.foldl chainThen (tr, .ok ()) hooksFns
      = (tr ++ (runnerSpec hooksFns).1, (runnerSpec hooksFns).2) := by
  induction hooksFns generalizing tr with
  | nil => simp [runnerSpec]
  | cons fn rest ih =>
    obtain ⟨a, r⟩ := fn
    cases r with
    | ok u =>
      cases u
      simp only [List.foldl_cons, runnerSpec, chainThen, ih]
      simp
    | error e =>
      simp only [List.foldl_cons, runnerSpec, chainThen]
      exact chainThen_foldl_error rest (tr ++ [a]) e

theorem applyOps_get_general {α : Type} (l : Lifecycle) (ops : List (RegOp α)) :
    ∀ s : HookStore α,
      hsGet (applyOps l s ops) l
        = ((preLists ops).reverse).flatten ++ hsGet s l ++ (appLists ops).flatten := by
  induction ops with
  | nil => intro s; simp [applyOps, preLists, appLists]
  | cons op rest ih =>
    intro s
    cases op with
    | app fns =>
      have h1 : applyOps l s (.app fns :: rest) = applyOps l (hsAppend s l fns) rest := rfl
      rw [h1, ih]
      simp [hsAppend, hsGet, appLists, preLists]
    | pre fns =>
      have h1 : applyOps l s (.pre fns :: rest) = applyOps l (hsPrepend s l fns) rest := rfl
      rw [h1, ih]
      simp [hsPrepend, hsGet, appLists, preLists]

/-! ## Concrete schedules -/

/-- One clean pass through the whole lifecycle: `start()` runs the boot
phases and parks on the release gate, then `stop()` releases it and runs
the teardown phases. -/
def fullLifecycleCmds : List Cmd :=
  [.callStart, .stepStart, .stepStart, .stepStart, .stepStart, .stepStart, .stepStart,
   .callStop, .stepStop, .stepStop, .stepStop, .stepStop]

/-- A startup whose `booted` phase hooks reject: `start()` runs its chain
up to the failure, the catch block invokes `stop()`, and the teardown
chain runs to completion. -/
def bootFailureCmds : List Cmd :=
  [.callStart, .stepStart, .stepStart, .stepStart,
   .stepStop, .stepStop, .stepStop, .stepStop]

/-- As `bootFailureCmds`, but the teardown stops at its second element
because the `shuttingDown` phase hooks also reject. -/
def bootTeardownFailureCmds : List Cmd :=
  [.callStart, .stepStart, .stepStart, .stepStart, .stepStop, .stepStop]

/-- An interleaving permitted by the public interface: `start()` is
called, its chain executes `status(STARTING)` and the `booting` hooks,
then — while the `booted` hooks are still pending — `stop()` is called
and its whole teardown chain runs; afterwards the `booted` hooks settle
and `start`'s chain continues through `ready`, `running` and `started`. -/
def stopDuringBootCmds : List Cmd :=
  [.callStart, .stepStart, .stepStart,
   .callStop, .stepStop, .stepStop, .stepStop, .stepStop,
   .stepStart, .stepStart, .stepStart, .stepStart]

/-! ## Claim theorems -/

/-- C2: the sequential async runner `promiseChain` executes hooks
strictly one at a time in list order — the recorded invocation order is
the list order of the hooks up to and including the first rejecting hook,
hooks after a rejection are never invoked, the whole chain rejects with
that same failure, and the empty list resolves immediately.  All of this
is the statement that the instrumented fold equals the spec-side
take-until-first-failure runner. -/
theorem promiseChain_sequential_firstFailure {α ε : Type}
    (hooksFns : List (α × Except ε Unit)) :
    promiseChainTr hooksFns = runnerSpec hooksFns := by
  unfold promiseChainTr
  rw [chainThen_foldl_ok]
  simp

/-- C3: for any sequence of `append`/`prepend` calls on one phase of the
hook registry, the stored hook order equals the hooks of the prepend
calls (last prepend call first, argument order kept within a call)
followed by the hooks of the append calls in call order. -/
theorem hookStore_prepend_append_order {α : Type} (l : Lifecycle) (ops : List (RegOp α)) :
    hsGet (applyOps l emptyStore ops) l
      = ((preLists ops).reverse).flatten ++ (appLists ops).flatten := by
  rw [applyOps_get_general]
  simp [emptyStore, hsGet]

/-- C4: the ladder's transition check agrees with the spec-side rule
(true iff the target's fixed six-phase index is strictly greater than the
current pointer's, an unset pointer counting as before all phases), and a
false check makes the transition a silent no-op: the pointer is unchanged
and the empty-array skip sentinel is returned instead of the phase's hook
thunk — no error is raised. -/
theorem ladder_forward_check_and_skip :
    ∀ (cur : Option Lifecycle) (l : Lifecycle),
      canTransition cur l = canAdvanceSpec cur l
      ∧ transitionStep cur l
          = (if canAdvanceSpec cur l then (some l, [Item.runHooks l]) else (cur, [])) := by
  decide

/-- C7: calling `stop()` while the run state is `IDLE` and the memo cell
is still empty caches a rejection ("The application is not running.") and
changes nothing else: the current-phase pointer, the run state, the
release gate, the start cell and the event log (hence no teardown hook)
are untouched. -/
theorem stop_before_start_rejects (h : Lifecycle → Bool) (c : Config)
    (ha : c.appState = .idle) (hs : c.stopSt = .notCalled) :
    step h c .callStop = { c with stopSt := .settled (.error ()) } := by
  simp [step, hs, invokeStopBody, ha]

/-- Witness for `stop_before_start_rejects` at the freshly constructed
module. -/
theorem stop_before_start_rejects_witness :
    initConfig.appState = .idle ∧ initConfig.stopSt = .notCalled
    ∧ step allOk initConfig .callStop = { initConfig with stopSt := .settled (.error ()) } :=
  ⟨rfl, rfl, stop_before_start_rejects allOk initConfig rfl rfl⟩

/-- C8: `start()` is single-flight.  Once the memo cell is occupied — by
an in-flight chain, a parked chain, a compensating chain or a settled
outcome — any further `start()` call leaves the whole module state
unchanged: no hook runs again and every caller shares the first call's
cached outcome. -/
theorem start_single_flight (h : Lifecycle → Bool) (c : Config)
    (hne : c.startSt ≠ .notCalled) :
    step h c .callStart = c := by
  cases hs : c.startSt with
  | notCalled => exact absurd hs hne
  | runningItems items => simp [step, hs]
  | waitingRelease => simp [step, hs]
  | compensating => simp [step, hs]
  | settled r => simp [step, hs]

/-- Witness for `start_single_flight` at a module whose start chain is in
flight (a concurrent second call). -/
theorem start_single_flight_witness :
    ({ initConfig with startSt := .runningItems [Item.startedItem] } : Config).startSt
        ≠ .notCalled
    ∧ step allOk { initConfig with startSt := .runningItems [Item.startedItem] } .callStart
        = { initConfig with startSt := .runningItems [Item.startedItem] } :=
  ⟨by decide, start_single_flight allOk
    { initConfig with startSt := .runningItems [Item.startedItem] } (by decide)⟩

/-- C9 (shutdown double-signal policy): a graceful (code 0) invocation of
the shutdown routine while the run state is already `STOPPING` never
takes the stop-invoking branch; with force not yet requested it logs the
force-exit warning and records the request, and with force already
requested it exits the process immediately with that code. -/
theorem shutdown_double_signal_policy :
    ∀ f : Bool,
      shutdown 0 ⟨AppState.stopping, f⟩
        = (⟨AppState.stopping, true⟩,
           if f then ShutAct.exitedImmediately 0 else ShutAct.warnedForce) := by
  decide

/-- C5 (amended): once the first `start()` call has settled, a second
call is absorbed by the memo cell: the module state is unchanged, no hook
re-runs, and the caller receives the first call's settled outcome — it is
not rejected with an "already started" error. -/
theorem start_after_settled_returns_memo (h : Lifecycle → Bool) (c : Config)
    (r : Except Unit Unit) (hs : c.startSt = .settled r) :
    step h c .callStart = c := by
  simp [step, hs]

/-- Witness for `start_after_settled_returns_memo` at a module whose
first start resolved. -/
theorem start_after_settled_returns_memo_witness :
    ({ initConfig with startSt := .settled (.ok ()) } : Config).startSt = .settled (.ok ())
    ∧ step allOk { initConfig with startSt := .settled (.ok ()) } .callStart
        = { initConfig with startSt := .settled (.ok ()) } :=
  ⟨rfl, start_after_settled_returns_memo allOk
    { initConfig with startSt := .settled (.ok ()) } (.ok ()) rfl⟩

/-- Counterexample to C5 as stated: after a completed first
`start()`/`stop()` lifetime, a second `start()` call does not fail — the
run ends with the start cell still holding the first call's resolved
outcome, and the second call changes nothing at all (no "already started"
rejection, no hook re-run). -/
theorem second_start_does_not_reject :
    (run allOk initConfig (fullLifecycleCmds ++ [Cmd.callStart])).startSt
        = .settled (.ok ())
    ∧ run allOk initConfig (fullLifecycleCmds ++ [Cmd.callStart])
        = run allOk initConfig fullLifecycleCmds := by
  decide

/-- Intermediate fact for the boot-failure scenario: the whole run,
computed once.  The hook environment is abstract except at the four
phases the schedule consults, so the equation also certifies that the
`ready` and `running` hook chains are never invoked. -/
theorem bootFailure_run_eq (h : Lifecycle → Bool)
    (h1 : h .booting = true) (h2 : h .booted = false)
    (h3 : h .shuttingDown = true) (h4 : h .terminated = true) :
    run h initConfig bootFailureCmds
      = { appState := .stopped, cur := some .terminated, releaseSet := false,
          startSt := .settled (.ok ()), stopSt := .settled (.ok ()),
          events := [.stateSet .starting, .ranHooks .booting true,
                     .ranHooks .booted false, .logError,
                     .stateSet .stopping, .ranHooks .shuttingDown true,
                     .ranHooks .terminated true, .stateSet .stopped] } := by
  simp [run, bootFailureCmds, step, initConfig, buildStartChain, buildStopChain,
        transitionStep, canTransition, indexOfJs, appLifecycle, invokeStopBody,
        afterCompStop, settleStop, h1, h2, h3, h4]

/-- C6 (amended): when the `booted` phase's hooks reject during `start()`
and the compensating `stop()` resolves (its teardown hooks succeed), the
`ready` and `running` hook chains are never invoked, the failure is
logged exactly once, `stop()` runs as the compensating action to
completion (run state `STOPPED`), and `start()` resolves rather than
rejecting.  (If the compensating `stop()` itself rejects, `start()`
rejects with that failure — see the counterexample theorem.) -/
theorem boot_failure_compensated_by_stop (h : Lifecycle → Bool)
    (h1 : h .booting = true) (h2 : h .booted = false)
    (h3 : h .shuttingDown = true) (h4 : h .terminated = true) :
    (run h initConfig bootFailureCmds).events.countP (ranPhase .ready) = 0
    ∧ (run h initConfig bootFailureCmds).events.countP (ranPhase .running) = 0
    ∧ (run h initConfig bootFailureCmds).events.count Event.logError = 1
    ∧ (run h initConfig bootFailureCmds).stopSt = .settled (.ok ())
    ∧ (run h initConfig bootFailureCmds).appState = .stopped
    ∧ (run h initConfig bootFailureCmds).startSt = .settled (.ok ()) := by
  rw [bootFailure_run_eq h h1 h2 h3 h4]
  decide

/-- Witness for `boot_failure_compensated_by_stop` in the environment
where exactly the `booted` phase fails. -/
theorem boot_failure_compensated_by_stop_witness :
    bootedFails .booting = true ∧ bootedFails .booted = false
    ∧ bootedFails .shuttingDown = true ∧ bootedFails .terminated = true
    ∧ ((run bootedFails initConfig bootFailureCmds).events.countP (ranPhase .ready) = 0
      ∧ (run bootedFails initConfig bootFailureCmds).events.countP (ranPhase .running) = 0
      ∧ (run bootedFails initConfig bootFailureCmds).events.count Event.logError = 1
      ∧ (run bootedFails initConfig bootFailureCmds).stopSt = .settled (.ok ())
      ∧ (run bootedFails initConfig bootFailureCmds).appState = .stopped
      ∧ (run bootedFails initConfig bootFailureCmds).startSt = .settled (.ok ())) :=
  ⟨rfl, rfl, rfl, rfl, boot_failure_compensated_by_stop bootedFails rfl rfl rfl rfl⟩

/-- Counterexample to C6 as stated: in an execution where a `booted` hook
rejects and a `shuttingDown` hook of the compensating teardown also
rejects, the `start()` promise rejects (the catch block's awaited
`stop()` re-throws) instead of resolving. -/
theorem boot_failure_start_can_reject :
    (run bootedTeardownFail initConfig bootTeardownFailureCmds).startSt
        = .settled (.error ())
    ∧ (run bootedTeardownFail initConfig bootTeardownFailureCmds).startSt
        ≠ .settled (.ok ()) := by
  decide

/-! ## C10: a stop rejection cached at idle is permanent -/

/-- The items of a chain invoke hook chains of boot phases only. -/
def bootOnlyItems (items : List Item) : Prop :=
  ∀ l : Lifecycle, Item.runHooks l ∈ items →
    (l = .booting ∨ l = .booted ∨ l = .ready ∨ l = .running)

/-- The start cell never invokes a teardown phase's hooks. -/
def noTeardownStart : StartStatus → Prop
  | .runningItems items => bootOnlyItems items
  | _ => True

/-- The `stop` memo cell holds the rejection cached by a first call made
at `IDLE`, no teardown phase's hook chain has ever been invoked, and the
start cell can only ever invoke boot phases. -/
def StopRejCached (c : Config) : Prop :=
  c.stopSt = .settled (.error ())
  ∧ c.events.countP (ranPhase .shuttingDown) = 0
  ∧ c.events.countP (ranPhase .terminated) = 0
  ∧ noTeardownStart c.startSt

instance (items : List Item) : Decidable (bootOnlyItems items) := by
  unfold bootOnlyItems
  infer_instance

theorem buildStartChain_bootOnly (cur : Option Lifecycle) :
    bootOnlyItems (buildStartChain cur).2 := by
  rcases cur with _ | c
  · decide
  · cases c <;> decide

theorem stopRejCached_step (h : Lifecycle → Bool) (c : Config) (cmd : Cmd)
    (hc : StopRejCached c) : StopRejCached (step h c cmd) := by
  obtain ⟨as, cur, rel, sst, pst, ev⟩ := c
  obtain ⟨h1, h2, h3, h4⟩ := hc
  simp only at h1 h2 h3 h4
  subst h1
  cases cmd with
  | callStart =>
    cases sst with
    | notCalled =>
      by_cases ha : as = AppState.idle
      · simp only [step, ha, if_pos]
        exact ⟨rfl, h2, h3, buildStartChain_bootOnly cur⟩
      · simp only [step, if_neg ha]
        exact ⟨rfl, h2, h3, trivial⟩
    | runningItems items => exact ⟨rfl, h2, h3, h4⟩
    | waitingRelease => exact ⟨rfl, h2, h3, trivial⟩
    | compensating => exact ⟨rfl, h2, h3, trivial⟩
    | settled r => exact ⟨rfl, h2, h3, trivial⟩
  | callStop => exact ⟨rfl, h2, h3, h4⟩
  | stepStart =>
    cases sst with
    | runningItems items =>
      have hboot : bootOnlyItems items := h4
      cases items with
      | nil => exact ⟨rfl, h2, h3, trivial⟩
      | cons item rest =>
        have hrest : bootOnlyItems rest := by
          intro l hl
          exact hboot l (List.mem_cons_of_mem _ hl)
        cases item with
        | setState s =>
          refine ⟨rfl, ?_, ?_, hrest⟩
          · simp [step, List.countP_append, h2, ranPhase]
          · simp [step, List.countP_append, h3, ranPhase]
        | runHooks l =>
          have hl : l = .booting ∨ l = .booted ∨ l = .ready ∨ l = .running :=
            hboot l (List.mem_cons_self _ _)
          have hlsd : l ≠ Lifecycle.shuttingDown := by
            rcases hl with h | h | h | h <;> subst h <;> simp
          have hltd : l ≠ Lifecycle.terminated := by
            rcases hl with h | h | h | h <;> subst h <;> simp
          by_cases hok : h l = true
          · simp only [step, hok, if_pos]
            refine ⟨rfl, ?_, ?_, hrest⟩
            · simp [List.countP_append, h2, ranPhase, hlsd]
            · simp [List.countP_append, h3, ranPhase, hltd]
          · simp only [step, if_neg hok]
            simp only [afterCompStop]
            refine ⟨rfl, ?_, ?_, trivial⟩
            · simp [List.countP_append, h2, ranPhase, hlsd]
            · simp [List.countP_append, h3, ranPhase, hltd]
        | startedItem =>
          refine ⟨rfl, ?_, ?_, trivial⟩
          · simp [step, List.countP_append, h2, ranPhase]
          · simp [step, List.countP_append, h3, ranPhase]
    | notCalled => exact ⟨rfl, h2, h3, trivial⟩
    | waitingRelease => exact ⟨rfl, h2, h3, trivial⟩
    | compensating => exact ⟨rfl, h2, h3, trivial⟩
    | settled r => exact ⟨rfl, h2, h3, trivial⟩
  | stepStop => exact ⟨rfl, h2, h3, h4⟩

theorem stopRejCached_run (h : Lifecycle → Bool) (cmds : List Cmd) :
    ∀ c : Config, StopRejCached c → StopRejCached (run h c cmds) := by
  induction cmds with
  | nil => intro c hc; exact hc
  | cons cmd rest ih => intro c hc; exact ih _ (stopRejCached_step h c cmd hc)

/-- C10: if the first-ever `stop()` call happens at `IDLE`, its "not
running" rejection is cached by the memo cell, and for every continuation
of the execution — further `stop()` calls from any caller (a signal
handler, a compensating stop inside `start`'s catch block), further
`start()` activity, anything — the stop cell still holds that same
rejection and no teardown phase's hook chain is ever invoked. -/
theorem stop_idle_rejection_is_permanent (h : Lifecycle → Bool) (cmds : List Cmd) :
    (run h initConfig (Cmd.callStop :: cmds)).stopSt = .settled (.error ())
    ∧ (run h initConfig (Cmd.callStop :: cmds)).events.countP (ranPhase .shuttingDown) = 0
    ∧ (run h initConfig (Cmd.callStop :: cmds)).events.countP (ranPhase .terminated) = 0 := by
  have base : StopRejCached (step h initConfig .callStop) := by
    have : step h initConfig .callStop = { initConfig with stopSt := .settled (.error ()) } :=
      rfl
    rw [this]
    exact ⟨rfl, rfl, rfl, trivial⟩
  have final : StopRejCached (run h (step h initConfig .callStop) cmds) :=
    stopRejCached_run h cmds _ base
  exact ⟨final.1, final.2.1, final.2.2.1⟩

/-! ## C1: evolution of the RunState -/

/-- A chain interior: only phase-hook thunks. -/
def midOK (mids : List Item) : Prop :=
  ∀ i ∈ mids, ∃ l, i = Item.runHooks l

instance (mids : List Item) : Decidable (midOK mids) := by
  unfold midOK
  infer_instance

/-- The hook thunks of the start chain, as eagerly collected by the four
`transition` calls. -/
def startMids (cur : Option Lifecycle) : List Item :=
  let s1 := transitionStep cur .booting
  let s2 := transitionStep s1.1 .booted
  let s3 := transitionStep s2.1 .ready
  let s4 := transitionStep s3.1 .running
  s1.2 ++ s2.2 ++ s3.2 ++ s4.2

/-- The hook thunks of the stop chain. -/
def stopMids (cur : Option Lifecycle) : List Item :=
  let s1 := transitionStep cur .shuttingDown
  let s2 := transitionStep s1.1 .terminated
  s1.2 ++ s2.2

theorem buildStartChain_items (cur : Option Lifecycle) :
    (buildStartChain cur).2
      = Item.setState .starting :: (startMids cur ++ [Item.startedItem]) := rfl

theorem buildStopChain_items (cur : Option Lifecycle) :
    (buildStopChain cur).2
      = Item.setState .stopping :: (stopMids cur ++ [Item.setState .stopped]) := rfl

theorem startMids_midOK (cur : Option Lifecycle) : midOK (startMids cur) := by
  rcases cur with _ | c
  · decide
  · cases c <;> decide

theorem stopMids_midOK (cur : Option Lifecycle) : midOK (stopMids cur) := by
  rcases cur with _ | c
  · decide
  · cases c <;> decide

theorem midOK_tail {i : Item} {mids : List Item} (hm : midOK (i :: mids)) :
    midOK mids :=
  fun j hj => hm j (List.mem_cons_of_mem _ hj)

/-- The control invariant of reachable, release-disciplined
configurations, strong enough to pin where each RunState assignment can
fire.  A start chain is a suffix of a freshly built one (interior items
are hook thunks, the `started` hook comes last) and its `status(STARTING)`
head can only be pending while the state is still `IDLE`; dually for the
stop chain; the cross-references record which memo cell can be populated
when. -/
structure Inv (c : Config) : Prop where
  startShape : ∀ items, c.startSt = .runningItems items →
    (∃ mids, midOK mids
      ∧ items = Item.setState .starting :: (mids ++ [Item.startedItem])
      ∧ c.appState = .idle)
    ∨ (∃ mids, midOK mids
      ∧ items = mids ++ [Item.startedItem]
      ∧ c.appState = .starting)
  startStop : ∀ items, c.startSt = .runningItems items →
    c.stopSt = .notCalled ∨ c.stopSt = .settled (.error ())
  stopShape : ∀ sitems, c.stopSt = .runningItems sitems →
    (∃ mids, midOK mids
      ∧ sitems = Item.setState .stopping :: (mids ++ [Item.setState .stopped])
      ∧ (c.appState = .starting ∨ c.appState = .started))
    ∨ (∃ mids, midOK mids
      ∧ sitems = mids ++ [Item.setState .stopped]
      ∧ c.appState = .stopping)
  stopStart : ∀ sitems, c.stopSt = .runningItems sitems →
    c.startSt = .compensating ∨ ∃ r, c.startSt = .settled r
  stopNC : c.stopSt = .notCalled →
    c.appState = .idle ∨ c.appState = .starting ∨ c.appState = .started
  stopOk : c.stopSt = .settled (.ok ()) → c.appState = .stopped
  rel1 : c.startSt = .waitingRelease → c.releaseSet = true
  rel2 : c.releaseSet = true → c.startSt = .waitingRelease
  appStarted : (c.appState = .starting ∨ c.appState = .started) →
    c.startSt ≠ .notCalled

theorem inv_init : Inv initConfig where
  startShape := fun _ hh => nomatch hh
  startStop := fun _ hh => nomatch hh
  stopShape := fun _ hh => nomatch hh
  stopStart := fun _ hh => nomatch hh
  stopNC := fun _ => Or.inl rfl
  stopOk := fun hh => nomatch hh
  rel1 := fun hh => nomatch hh
  rel2 := fun hh => nomatch hh
  appStarted := fun hh => by rcases hh with hh | hh <;> exact nomatch hh

/-- A rejected re-entry guard (`start` called with the state not `IDLE`)
only fills the start cell with a cached rejection. -/
theorem inv_start_guard_reject {as : AppState} {cur : Option Lifecycle} {rel : Bool}
    {pst : StopStatus} {ev : List Event}
    (hI : Inv ⟨as, cur, rel, .notCalled, pst, ev⟩) :
    Inv ⟨as, cur, rel, .settled (.error ()), pst, ev⟩ where
  startShape := fun _ heq => nomatch heq
  startStop := fun _ heq => nomatch heq
  stopShape := fun sitems heq => hI.stopShape sitems heq
  stopStart := fun _ _ => Or.inr ⟨.error (), rfl⟩
  stopNC := hI.stopNC
  stopOk := hI.stopOk
  rel1 := fun hw => nomatch hw
  rel2 := fun hr => nomatch (hI.rel2 hr)
  appStarted := fun _ hh => nomatch hh

theorem inv_step_callStart (h : Lifecycle → Bool) (c : Config) (hI : Inv c) :
    Inv (step h c .callStart) ∧ c.appState.idx ≤ (step h c .callStart).appState.idx := by
  obtain ⟨as, cur, rel, sst, pst, ev⟩ := c
  cases sst with
  | notCalled =>
    cases as with
    | idle =>
      have hstep : step h ⟨.idle, cur, rel, .notCalled, pst, ev⟩ .callStart
          = ⟨.idle, (buildStartChain cur).1, rel,
             .runningItems (buildStartChain cur).2, pst, ev⟩ := rfl
      rw [hstep]
      have hpst : pst = .notCalled ∨ pst = .settled (.error ()) := by
        cases pst with
        | notCalled => exact Or.inl rfl
        | runningItems sitems =>
          rcases hI.stopStart sitems rfl with hx | ⟨r, hx⟩ <;> exact nomatch hx
        | settled r =>
          rcases r with u | u
          · cases u; exact Or.inr rfl
          · cases u; exact nomatch (hI.stopOk rfl)
      refine ⟨⟨?_, ?_, ?_, ?_, ?_, ?_, ?_, ?_, ?_⟩, Nat.le_refl _⟩
      · intro items heq
        injection heq with h'
        subst h'
        exact Or.inl ⟨startMids cur, startMids_midOK cur, buildStartChain_items cur, rfl⟩
      · intro items _
        exact hpst
      · intro sitems heq
        rcases hpst with hp | hp <;> rw [hp] at heq <;> exact nomatch heq
      · intro sitems heq
        rcases hpst with hp | hp <;> rw [hp] at heq <;> exact nomatch heq
      · intro _
        exact Or.inl rfl
      · intro hk
        rcases hpst with hp | hp
        · rw [hp] at hk; exact nomatch hk
        · rw [hp] at hk; injection hk with hk2; exact nomatch hk2
      · intro hw
        exact nomatch hw
      · intro hr
        exact nomatch (hI.rel2 hr)
      · intro ha _
        rcases ha with ha | ha <;> exact nomatch ha
    | starting => exact ⟨inv_start_guard_reject hI, Nat.le_refl _⟩
    | started => exact ⟨inv_start_guard_reject hI, Nat.le_refl _⟩
    | stopping => exact ⟨inv_start_guard_reject hI, Nat.le_refl _⟩
    | stopped => exact ⟨inv_start_guard_reject hI, Nat.le_refl _⟩
  | runningItems items => exact ⟨hI, Nat.le_refl _⟩
  | waitingRelease => exact ⟨hI, Nat.le_refl _⟩
  | compensating => exact ⟨hI, Nat.le_refl _⟩
  | settled r => exact ⟨hI, Nat.le_refl _⟩

/-- Configuration after an accepted `stop()` call: the teardown chain was
just built eagerly, the release gate is clear, and the start cell is
compensating or settled. -/
theorem inv_stop_accept {as : AppState} {cur : Option Lifecycle} {sst : StartStatus}
    {ev : List Event}
    (has : as = AppState.starting ∨ as = AppState.started)
    (hss : sst = .compensating ∨ ∃ r, sst = .settled r) :
    Inv ⟨as, (buildStopChain cur).1, false, sst,
         .runningItems (buildStopChain cur).2, ev⟩ where
  startShape := fun _ heq => by
    rcases hss with hx | ⟨r, hx⟩ <;> subst hx <;> exact nomatch heq
  startStop := fun _ heq => by
    rcases hss with hx | ⟨r, hx⟩ <;> subst hx <;> exact nomatch heq
  stopShape := fun sitems heq => by
    injection heq with h'
    subst h'
    exact Or.inl ⟨stopMids cur, stopMids_midOK cur, buildStopChain_items cur, has⟩
  stopStart := fun _ _ => hss
  stopNC := fun hh => nomatch hh
  stopOk := fun hk => nomatch hk
  rel1 := fun hw => by
    rcases hss with hx | ⟨r, hx⟩ <;> subst hx <;> exact nomatch hw
  rel2 := fun hr => nomatch hr
  appStarted := fun _ hh => by
    rcases hss with hx | ⟨r, hx⟩ <;> subst hx <;> exact nomatch hh

theorem inv_step_callStop (h : Lifecycle → Bool) (c : Config) (hI : Inv c)
    (hg : notMidStart c = true) :
    Inv (step h c .callStop) ∧ c.appState.idx ≤ (step h c .callStop).appState.idx := by
  obtain ⟨as, cur, rel, sst, pst, ev⟩ := c
  cases pst with
  | runningItems sitems => exact ⟨hI, Nat.le_refl _⟩
  | settled r => exact ⟨hI, Nat.le_refl _⟩
  | notCalled =>
    cases as with
    | idle =>
      have hstep : step h ⟨.idle, cur, rel, sst, .notCalled, ev⟩ .callStop
          = ⟨.idle, cur, rel, sst, .settled (.error ()), ev⟩ := rfl
      rw [hstep]
      refine ⟨⟨?_, ?_, ?_, ?_, ?_, ?_, ?_, ?_, ?_⟩, Nat.le_refl _⟩
      · intro items heq
        exact hI.startShape items heq
      · intro items _
        exact Or.inr rfl
      · intro sitems heq
        exact nomatch heq
      · intro sitems heq
        exact nomatch heq
      · intro hh
        exact nomatch hh
      · intro hk
        injection hk with hk2
        exact nomatch hk2
      · exact hI.rel1
      · exact hI.rel2
      · exact hI.appStarted
    | starting =>
      cases rel with
      | true =>
        have hw : sst = .waitingRelease := hI.rel2 rfl
        subst hw
        exact ⟨inv_stop_accept (Or.inl rfl) (Or.inr ⟨.ok (), rfl⟩), Nat.le_refl _⟩
      | false =>
        cases sst with
        | notCalled => exact absurd rfl (hI.appStarted (Or.inl rfl))
        | runningItems items => exact nomatch hg
        | waitingRelease => exact nomatch (hI.rel1 rfl)
        | compensating =>
          exact ⟨inv_stop_accept (Or.inl rfl) (Or.inl rfl), Nat.le_refl _⟩
        | settled r =>
          exact ⟨inv_stop_accept (Or.inl rfl) (Or.inr ⟨r, rfl⟩), Nat.le_refl _⟩
    | started =>
      cases rel with
      | true =>
        have hw : sst = .waitingRelease := hI.rel2 rfl
        subst hw
        exact ⟨inv_stop_accept (Or.inr rfl) (Or.inr ⟨.ok (), rfl⟩), Nat.le_refl _⟩
      | false =>
        cases sst with
        | notCalled => exact absurd rfl (hI.appStarted (Or.inr rfl))
        | runningItems items => exact nomatch hg
        | waitingRelease => exact nomatch (hI.rel1 rfl)
        | compensating =>
          exact ⟨inv_stop_accept (Or.inr rfl) (Or.inl rfl), Nat.le_refl _⟩
        | settled r =>
          exact ⟨inv_stop_accept (Or.inr rfl) (Or.inr ⟨r, rfl⟩), Nat.le_refl _⟩
    | stopping =>
      rcases hI.stopNC rfl with hx | hx | hx <;> exact nomatch hx
    | stopped =>
      rcases hI.stopNC rfl with hx | hx | hx <;> exact nomatch hx

theorem inv_step_stepStart (h : Lifecycle → Bool) (c : Config) (hI : Inv c) :
    Inv (step h c .stepStart) ∧ c.appState.idx ≤ (step h c .stepStart).appState.idx := by
  obtain ⟨as, cur, rel, sst, pst, ev⟩ := c
  cases sst with
  | notCalled => exact ⟨hI, Nat.le_refl _⟩
  | waitingRelease => exact ⟨hI, Nat.le_refl _⟩
  | compensating => exact ⟨hI, Nat.le_refl _⟩
  | settled r => exact ⟨hI, Nat.le_refl _⟩
  | runningItems items =>
    have hpst : pst = .notCalled ∨ pst = .settled (.error ()) := hI.startStop items rfl
    have hrel : rel = false := by
      cases rel
      · rfl
      · exact nomatch (hI.rel2 rfl)
    subst hrel
    rcases hI.startShape items rfl with ⟨mids, hmid, hitems, has⟩ | ⟨mids, hmid, hitems, has⟩
    · subst has
      subst hitems
      have hstep : step h ⟨.idle, cur, false,
            .runningItems (Item.setState .starting :: (mids ++ [Item.startedItem])),
            pst, ev⟩ .stepStart
          = ⟨.starting, cur, false, .runningItems (mids ++ [Item.startedItem]),
             pst, ev ++ [.stateSet .starting]⟩ := rfl
      rw [hstep]
      refine ⟨⟨?_, ?_, ?_, ?_, ?_, ?_, ?_, ?_, ?_⟩, Nat.zero_le _⟩
      · intro items2 heq
        injection heq with h'
        subst h'
        exact Or.inr ⟨mids, hmid, rfl, rfl⟩
      · intro _ _
        exact hpst
      · intro sitems heq
        rcases hpst with hp | hp <;> rw [hp] at heq <;> exact nomatch heq
      · intro sitems heq
        rcases hpst with hp | hp <;> rw [hp] at heq <;> exact nomatch heq
      · intro _
        exact Or.inr (Or.inl rfl)
      · intro hk
        rcases hpst with hp | hp
        · rw [hp] at hk; exact nomatch hk
        · rw [hp] at hk; injection hk with hk2; exact nomatch hk2
      · intro hw
        exact nomatch hw
      · intro hr
        exact nomatch hr
      · intro _ hh
        exact nomatch hh
    · subst has
      subst hitems
      cases mids with
      | nil =>
        simp only [List.nil_append]
        have hstep : step h ⟨.starting, cur, false, .runningItems [Item.startedItem],
              pst, ev⟩ .stepStart
            = ⟨.started, cur, true, .waitingRelease, pst, ev ++ [.stateSet .started]⟩ := rfl
        rw [hstep]
        refine ⟨⟨?_, ?_, ?_, ?_, ?_, ?_, ?_, ?_, ?_⟩, Nat.le_succ _⟩
        · intro items2 heq
          exact nomatch heq
        · intro items2 heq
          exact nomatch heq
        · intro sitems heq
          rcases hpst with hp | hp <;> rw [hp] at heq <;> exact nomatch heq
        · intro sitems heq
          rcases hpst with hp | hp <;> rw [hp] at heq <;> exact nomatch heq
        · intro _
          exact Or.inr (Or.inr rfl)
        · intro hk
          rcases hpst with hp | hp
          · rw [hp] at hk; exact nomatch hk
          · rw [hp] at hk; injection hk with hk2; exact nomatch hk2
        · intro _
          rfl
        · intro _
          rfl
        · intro _ hh
          exact nomatch hh
      | cons i mids2 =>
        obtain ⟨l, hi⟩ := hmid i (List.mem_cons_self _ _)
        subst hi
        have hmid2 : midOK mids2 := midOK_tail hmid
        simp only [List.cons_append]
        by_cases hok : h l = true
        · have hstep : step h ⟨.starting, cur, false,
                .runningItems (Item.runHooks l :: (mids2 ++ [Item.startedItem])),
                pst, ev⟩ .stepStart
              = ⟨.starting, cur, false, .runningItems (mids2 ++ [Item.startedItem]),
                 pst, ev ++ [.ranHooks l true]⟩ := by
            simp only [step]
            rw [if_pos hok]
          rw [hstep]
          refine ⟨⟨?_, ?_, ?_, ?_, ?_, ?_, ?_, ?_, ?_⟩, Nat.le_refl _⟩
          · intro items2 heq
            injection heq with h'
            subst h'
            exact Or.inr ⟨mids2, hmid2, rfl, rfl⟩
          · intro _ _
            exact hpst
          · intro sitems heq
            rcases hpst with hp | hp <;> rw [hp] at heq <;> exact nomatch heq
          · intro sitems heq
            rcases hpst with hp | hp <;> rw [hp] at heq <;> exact nomatch heq
          · intro _
            exact Or.inr (Or.inl rfl)
          · intro hk
            rcases hpst with hp | hp
            · rw [hp] at hk; exact nomatch hk
            · rw [hp] at hk; injection hk with hk2; exact nomatch hk2
          · intro hw
            exact nomatch hw
          · intro hr
            exact nomatch hr
          · intro _ hh
            exact nomatch hh
        · rcases hpst with hp | hp
          · subst hp
            have hstep : step h ⟨.starting, cur, false,
                  .runningItems (Item.runHooks l :: (mids2 ++ [Item.startedItem])),
                  .notCalled, ev⟩ .stepStart
                = ⟨.starting, (buildStopChain cur).1, false, .compensating,
                   .runningItems (buildStopChain cur).2,
                   ev ++ [.ranHooks l false, .logError]⟩ := by
              simp only [step]
              rw [if_neg hok]
              simp [invokeStopBody, afterCompStop]
            rw [hstep]
            exact ⟨inv_stop_accept (Or.inl rfl) (Or.inl rfl), Nat.le_refl _⟩
          · subst hp
            have hstep : step h ⟨.starting, cur, false,
                  .runningItems (Item.runHooks l :: (mids2 ++ [Item.startedItem])),
                  .settled (.error ()), ev⟩ .stepStart
                = ⟨.starting, cur, false, .settled (.error ()), .settled (.error ()),
                   ev ++ [.ranHooks l false, .logError]⟩ := by
              simp only [step]
              rw [if_neg hok]
              simp [invokeStopBody, afterCompStop]
            rw [hstep]
            refine ⟨⟨?_, ?_, ?_, ?_, ?_, ?_, ?_, ?_, ?_⟩, Nat.le_refl _⟩
            · intro items2 heq
              exact nomatch heq
            · intro items2 heq
              exact nomatch heq
            · intro sitems heq
              exact nomatch heq
            · intro sitems heq
              exact nomatch heq
            · intro hh
              exact nomatch hh
            · intro hk
              injection hk with hk2
              exact nomatch hk2
            · intro hw
              exact nomatch hw
            · intro hr
              exact nomatch hr
            · intro _ hh
              exact nomatch hh

theorem inv_step_stepStop (h : Lifecycle → Bool) (c : Config) (hI : Inv c) :
    Inv (step h c .stepStop) ∧ c.appState.idx ≤ (step h c .stepStop).appState.idx := by
  obtain ⟨as, cur, rel, sst, pst, ev⟩ := c
  cases pst with
  | notCalled => exact ⟨hI, Nat.le_refl _⟩
  | settled r => exact ⟨hI, Nat.le_refl _⟩
  | runningItems sitems =>
    have hss : sst = .compensating ∨ ∃ r, sst = .settled r := hI.stopStart sitems rfl
    have hrel : rel = false := by
      cases rel
      · rfl
      · have hw := hI.rel2 rfl
        rcases hss with hx | ⟨r, hx⟩ <;> rw [hx] at hw <;> exact nomatch hw
    subst hrel
    rcases hI.stopShape sitems rfl with ⟨mids, hmid, hsit, has⟩ | ⟨mids, hmid, hsit, has⟩
    · subst hsit
      have hne : (mids ++ [Item.setState AppState.stopped]).isEmpty = false := by
        cases mids <;> rfl
      have hstep : step h ⟨as, cur, false, sst,
            .runningItems (Item.setState .stopping :: (mids ++ [Item.setState .stopped])),
            ev⟩ .stepStop
          = ⟨.stopping, cur, false, sst,
             .runningItems (mids ++ [Item.setState .stopped]),
             ev ++ [.stateSet .stopping]⟩ := by
        simp [step, hne]
      rw [hstep]
      refine ⟨⟨?_, ?_, ?_, ?_, ?_, ?_, ?_, ?_, ?_⟩, ?_⟩
      · intro items heq
        rcases hss with hx | ⟨r, hx⟩ <;> rw [hx] at heq <;> exact nomatch heq
      · intro items heq
        rcases hss with hx | ⟨r, hx⟩ <;> rw [hx] at heq <;> exact nomatch heq
      · intro sit2 heq
        injection heq with h'
        subst h'
        exact Or.inr ⟨mids, hmid, rfl, rfl⟩
      · intro _ _
        exact hss
      · intro hh
        exact nomatch hh
      · intro hk
        exact nomatch hk
      · intro hw
        rcases hss with hx | ⟨r, hx⟩ <;> rw [hx] at hw <;> exact nomatch hw
      · intro hr
        exact nomatch hr
      · intro _ hh
        rcases hss with hx | ⟨r, hx⟩ <;> rw [hx] at hh <;> exact nomatch hh
      · rcases has with hx | hx <;> subst hx
        · exact Nat.le_succ_of_le (Nat.le_succ _)
        · exact Nat.le_succ _
    · subst has
      subst hsit
      cases mids with
      | nil =>
        simp only [List.nil_append]
        rcases hss with hx | ⟨r, hx⟩ <;> subst hx
        · have hstep : step h ⟨.stopping, cur, false, .compensating,
                .runningItems [Item.setState .stopped], ev⟩ .stepStop
              = ⟨.stopped, cur, false, .settled (.ok ()), .settled (.ok ()),
                 ev ++ [.stateSet .stopped]⟩ := rfl
          rw [hstep]
          refine ⟨⟨?_, ?_, ?_, ?_, ?_, ?_, ?_, ?_, ?_⟩, Nat.le_succ _⟩
          · intro items heq
            exact nomatch heq
          · intro items heq
            exact nomatch heq
          · intro sit2 heq
            exact nomatch heq
          · intro sit2 heq
            exact nomatch heq
          · intro hh
            exact nomatch hh
          · intro _
            rfl
          · intro hw
            exact nomatch hw
          · intro hr
            exact nomatch hr
          · intro _ hh
            exact nomatch hh
        · have hstep : step h ⟨.stopping, cur, false, .settled r,
                .runningItems [Item.setState .stopped], ev⟩ .stepStop
              = ⟨.stopped, cur, false, .settled r, .settled (.ok ()),
                 ev ++ [.stateSet .stopped]⟩ := rfl
          rw [hstep]
          refine ⟨⟨?_, ?_, ?_, ?_, ?_, ?_, ?_, ?_, ?_⟩, Nat.le_succ _⟩
          · intro items heq
            exact nomatch heq
          · intro items heq
            exact nomatch heq
          · intro sit2 heq
            exact nomatch heq
          · intro sit2 heq
            exact nomatch heq
          · intro hh
            exact nomatch hh
          · intro _
            rfl
          · intro hw
            exact nomatch hw
          · intro hr
            exact nomatch hr
          · intro _ hh
            exact nomatch hh
      | cons i mids2 =>
        obtain ⟨l, hi⟩ := hmid i (List.mem_cons_self _ _)
        subst hi
        have hmid2 : midOK mids2 := midOK_tail hmid
        simp only [List.cons_append]
        have hne : (mids2 ++ [Item.setState AppState.stopped]).isEmpty = false := by
          cases mids2 <;> rfl
        by_cases hok : h l = true
        · have hstep : step h ⟨.stopping, cur, false, sst,
                .runningItems (Item.runHooks l :: (mids2 ++ [Item.setState .stopped])),
                ev⟩ .stepStop
              = ⟨.stopping, cur, false, sst,
                 .runningItems (mids2 ++ [Item.setState .stopped]),
                 ev ++ [.ranHooks l true]⟩ := by
            simp [step, hok, hne]
          rw [hstep]
          refine ⟨⟨?_, ?_, ?_, ?_, ?_, ?_, ?_, ?_, ?_⟩, Nat.le_refl _⟩
          · intro items heq
            rcases hss with hx | ⟨r, hx⟩ <;> rw [hx] at heq <;> exact nomatch heq
          · intro items heq
            rcases hss with hx | ⟨r, hx⟩ <;> rw [hx] at heq <;> exact nomatch heq
          · intro sit2 heq
            injection heq with h'
            subst h'
            exact Or.inr ⟨mids2, hmid2, rfl, rfl⟩
          · intro _ _
            exact hss
          · intro hh
            exact nomatch hh
          · intro hk
            exact nomatch hk
          · intro hw
            rcases hss with hx | ⟨r, hx⟩ <;> rw [hx] at hw <;> exact nomatch hw
          · intro hr
            exact nomatch hr
          · intro _ hh
            rcases hss with hx | ⟨r, hx⟩ <;> rw [hx] at hh <;> exact nomatch hh
        · rcases hss with hx | ⟨r, hx⟩ <;> subst hx
          · have hstep : step h ⟨.stopping, cur, false, .compensating,
                  .runningItems (Item.runHooks l :: (mids2 ++ [Item.setState .stopped])),
                  ev⟩ .stepStop
                = ⟨.stopping, cur, false, .settled (.error ()), .settled (.error ()),
                   ev ++ [.ranHooks l false]⟩ := by
              simp [step, hok, settleStop]
            rw [hstep]
            refine ⟨⟨?_, ?_, ?_, ?_, ?_, ?_, ?_, ?_, ?_⟩, Nat.le_refl _⟩
            · intro items heq
              exact nomatch heq
            · intro items heq
              exact nomatch heq
            · intro sit2 heq
              exact nomatch heq
            · intro sit2 heq
              exact nomatch heq
            · intro hh
              exact nomatch hh
            · intro hk
              injection hk with hk2
              exact nomatch hk2
            · intro hw
              exact nomatch hw
            · intro hr
              exact nomatch hr
            · intro _ hh
              exact nomatch hh
          · have hstep : step h ⟨.stopping, cur, false, .settled r,
                  .runningItems (Item.runHooks l :: (mids2 ++ [Item.setState .stopped])),
                  ev⟩ .stepStop
                = ⟨.stopping, cur, false, .settled r, .settled (.error ()),
                   ev ++ [.ranHooks l false]⟩ := by
              simp [step, hok, settleStop]
            rw [hstep]
            refine ⟨⟨?_, ?_, ?_, ?_, ?_, ?_, ?_, ?_, ?_⟩, Nat.le_refl _⟩
            · intro items heq
              exact nomatch heq
            · intro items heq
              exact nomatch heq
            · intro sit2 heq
              exact nomatch heq
            · intro sit2 heq
              exact nomatch heq
            · intro hh
              exact nomatch hh
            · intro hk
              injection hk with hk2
              exact nomatch hk2
            · intro hw
              exact nomatch hw
            · intro hr
              exact nomatch hr
            · intro _ hh
              exact nomatch hh

theorem inv_step (h : Lifecycle → Bool) (c : Config) (cmd : Cmd) (hI : Inv c)
    (hg : cmd = Cmd.callStop → notMidStart c = true) :
    Inv (step h c cmd) ∧ c.appState.idx ≤ (step h c cmd).appState.idx := by
  cases cmd with
  | callStart => exact inv_step_callStart h c hI
  | callStop => exact inv_step_callStop h c hI (hg rfl)
  | stepStart => exact inv_step_stepStart h c hI
  | stepStop => exact inv_step_stepStop h c hI

theorem statesOf_chain (h : Lifecycle → Bool) :
    ∀ (cmds : List Cmd) (c : Config), Inv c → goodFrom h c cmds = true →
      List.Chain' (fun a b : AppState => a.idx ≤ b.idx) (statesOf h c cmds) := by
  intro cmds
  induction cmds with
  | nil =>
    intro c _ _
    exact List.chain'_singleton _
  | cons cmd rest ih =>
    intro c hI hg
    have hg2 : ((cmd ≠ Cmd.callStop) || notMidStart c) = true
        ∧ goodFrom h (step h c cmd) rest = true := by
      simpa [goodFrom, Bool.and_eq_true] using hg
    have hgood : cmd = Cmd.callStop → notMidStart c = true := by
      intro hc
      subst hc
      simpa using hg2.1
    obtain ⟨hInext, hle⟩ := inv_step h c cmd hI hgood
    have hrest := ih (step h c cmd) hInext hg2.2
    have hshape : statesOf h c (cmd :: rest)
        = c.appState :: statesOf h (step h c cmd) rest := rfl
    rw [hshape, List.chain'_cons']
    refine ⟨?_, hrest⟩
    intro b hb
    have hhead : (statesOf h (step h c cmd) rest).head? = some (step h c cmd).appState := by
      cases rest <;> rfl
    rw [hhead] at hb
    rw [Option.mem_def] at hb
    injection hb with hb2
    rw [← hb2]
    exact hle

/-- C1 (amended): in every execution in which `stop()` is never invoked
while `start()`'s chain still has pending items (so a `stop()` call
happens before `start()` was ever called, while `start()` is parked on
the release gate, or after `start()` settled), the observed RunState
sequence is monotone along idle → starting → started → stopping →
stopped: it never moves backwards and never re-enters an earlier state.
If `stop()` runs while `start()`'s chain is mid-flight this fails — see
the counterexample theorem. -/
theorem runstate_monotone_without_midboot_stop (h : Lifecycle → Bool) (cmds : List Cmd)
    (hg : goodFrom h initConfig cmds = true) :
    List.Chain' (fun a b : AppState => a.idx ≤ b.idx) (statesOf h initConfig cmds) :=
  statesOf_chain h cmds initConfig inv_init hg

/-- Witness for `runstate_monotone_without_midboot_stop` on the clean
full-lifecycle schedule. -/
theorem runstate_monotone_without_midboot_stop_witness :
    goodFrom allOk initConfig fullLifecycleCmds = true
    ∧ List.Chain' (fun a b : AppState => a.idx ≤ b.idx)
        (statesOf allOk initConfig fullLifecycleCmds) :=
  ⟨by decide, runstate_monotone_without_midboot_stop allOk fullLifecycleCmds (by decide)⟩

/-- Counterexample to C1 as stated: under the public-interface
interleaving in which `stop()` is called (and completes) while the
`booted` hooks of `start()`'s chain are still pending, the observed
RunState sequence ends stopped → started — it moves backwards, re-entering
`STARTED` after `STOPPED`. -/
theorem runstate_backwards_on_midboot_stop :
    statesOf allOk initConfig stopDuringBootCmds
      = [.idle, .idle, .starting, .starting, .starting, .stopping, .stopping, .stopping,
         .stopped, .stopped, .stopped, .stopped, .started]
    ∧ ¬ List.Chain' (fun a b : AppState => a.idx ≤ b.idx)
        (statesOf allOk initConfig stopDuringBootCmds) := by
  have he : statesOf allOk initConfig stopDuringBootCmds
      = [.idle, .idle, .starting, .starting, .starting, .stopping, .stopping, .stopping,
         .stopped, .stopped, .stopped, .stopped, .started] := by decide
  refine ⟨he, ?_⟩
  rw [he]
  simp [List.chain'_cons, AppState.idx]

end App
